import Mathlib

/-!
Verification of the core subsystems of the revit-parameter-explorer
repository: the tree/property merge engine of the `allProperties` API
route, the client-side readiness poller `handleModelViewSelect`, the
lazy navigation tree (`toggleNode`, `updateNode`, `findNode` in
`projectSidebar.tsx`), and the URN identifier encode/decode transforms.

The definitions below are shallow embeddings translated directly from
the TypeScript source.  JavaScript `Map` is modelled by an association
list with in-place overwrite on `set`; `String.prototype.replace` with
a string pattern (which replaces only the first occurrence) is modelled
by `replaceFirst` on `List Char`; React state updates are modelled by
explicit state passing on a `ClientState` record.
-/

set_option autoImplicit false

namespace RevitParamExplorer

/-- Property payload of one object: a mapping from category name to a
mapping from property name to value, modelled as nested association
lists (the route treats it as an opaque JSON object). -/
abbrev PropertyBag := List (String × List (String × String))

/-- One record of the flat property collection returned by
`getAllProperties` (`PropertiesDataCollection` in the source). -/
structure PropertiesDataCollection where
  objectid : Nat
  name : String
  properties : PropertyBag
  deriving Repr, DecidableEq

/-- A node of the object tree returned by `getObjectTree`
(`ObjectTreeData` in the source): `objects` is the optional children
array and `properties` the optional attached property bag. -/
inductive ObjectTreeData : Type where
  | mk (objectid : Nat) (name : String)
       (objects : Option (List ObjectTreeData))
       (properties : Option PropertyBag)
  deriving Repr

def ObjectTreeData.objectid : ObjectTreeData → Nat
  | .mk i _ _ _ => i

def ObjectTreeData.name : ObjectTreeData → String
  | .mk _ n _ _ => n

def ObjectTreeData.objects : ObjectTreeData → Option (List ObjectTreeData)
  | .mk _ _ o _ => o

def ObjectTreeData.properties : ObjectTreeData → Option PropertyBag
  | .mk _ _ _ p => p

/-- Model of the JavaScript `Map<number, PropertiesDataCollection>`
used by the route: an association list whose `set` overwrites the
existing entry for a key in place. -/
structure NatMap (α : Type) where
  entries : List (Nat × α)
  deriving Repr

def NatMap.empty {α : Type} : NatMap α := ⟨[]⟩

def setEntries {α : Type} : List (Nat × α) → Nat → α → List (Nat × α)
  | [], k, v => [(k, v)]
  | (k', v') :: rest, k, v =>
    if k' = k then (k, v) :: rest else (k', v') :: setEntries rest k v

/-- JavaScript `Map.prototype.set`: overwrite the entry for `k` if present,
otherwise append a new entry. -/
def NatMap.set {α : Type} (m : NatMap α) (k : Nat) (v : α) : NatMap α :=
  ⟨setEntries m.entries k v⟩

def getEntries {α : Type} : List (Nat × α) → Nat → Option α
  | [], _ => none
  | (k', v') :: rest, k => if k' = k then some v' else getEntries rest k

/-- JavaScript `Map.prototype.get`. -/
def NatMap.get {α : Type} (m : NatMap α) (k : Nat) : Option α :=
  getEntries m.entries k

/-- The `propertiesMap` built by the `allProperties` route:
`allProperties.properties.forEach((prop) => propertiesMap.set(prop.objectid, prop))`. -/
def propertiesMap (props : List PropertiesDataCollection) :
    NatMap PropertiesDataCollection :=
  props.foldl (fun m p => m.set p.objectid p) NatMap.empty

mutual

/-- The recursive `attachProperties` helper of the `allProperties`
route, applied to one node: look the node's `objectid` up in the map,
attach the matching record's `properties` field if present, and recurse
into `objects` when that field is set (an empty array is truthy in
JavaScript, so `some []` also recurses). -/
def attachOne (m : NatMap PropertiesDataCollection) :
    ObjectTreeData → ObjectTreeData
  | .mk oid nm objs props =>
    let props' : Option PropertyBag :=
      match m.get oid with
      | some p => some p.properties
      | none => props
    match objs with
    | some cs => .mk oid nm (some (attachProperties m cs)) props'
    | none => .mk oid nm none props'

/-- Function `attachProperties` over a level of the object tree (the
`objects.forEach` loop of the route). -/
def attachProperties (m : NatMap PropertiesDataCollection) :
    List ObjectTreeData → List ObjectTreeData
  | [] => []
  | o :: os => attachOne m o :: attachProperties m os

end

/-- Subtree of an object-tree node at a path of child indices
(`[]` is the node itself, `i :: p` descends into the `i`-th child). -/
def getTreeAt : ObjectTreeData → List Nat → Option ObjectTreeData
  | t, [] => some t
  | t, i :: p =>
    match t.objects with
    | some cs =>
      match cs[i]? with
      | some c => getTreeAt c p
      | none => none
    | none => none

/-- Node of an object-tree forest at root index `i` and path `p`. -/
def getForestAt (ts : List ObjectTreeData) (i : Nat) (p : List Nat) :
    Option ObjectTreeData :=
  match ts[i]? with
  | some t => getTreeAt t p
  | none => none

mutual

/-- Erase every `properties` field of a tree (used to state that the
merge changes nothing but `properties`). -/
def erasePropsTree : ObjectTreeData → ObjectTreeData
  | .mk oid nm (some cs) _ => .mk oid nm (some (erasePropsForest cs)) none
  | .mk oid nm none _ => .mk oid nm none none

/-- Erase every `properties` field of a forest. -/
def erasePropsForest : List ObjectTreeData → List ObjectTreeData
  | [] => []
  | t :: ts => erasePropsTree t :: erasePropsForest ts

end

/-- The record of `P` that "wins" for a given object id under
last-write-wins: the last record of `P` whose `objectid` matches. -/
def lastMatch (P : List PropertiesDataCollection) (oid : Nat) :
    Option PropertiesDataCollection :=
  P.reverse.find? (fun r => r.objectid == oid)

section MapLemmas

theorem getEntries_setEntries_self {α : Type} (l : List (Nat × α)) (k : Nat) (v : α) :
    getEntries (setEntries l k v) k = some v := by
  induction l with
  | nil => simp [setEntries, getEntries]
  | cons hd tl ih =>
    obtain ⟨k', v'⟩ := hd
    by_cases h : k' = k <;> simp [setEntries, getEntries, h, ih]

theorem getEntries_setEntries_ne {α : Type} (l : List (Nat × α)) (k k' : Nat) (v : α)
    (h : k' ≠ k) : getEntries (setEntries l k v) k' = getEntries l k' := by
  induction l with
  | nil => simp [setEntries, getEntries, Ne.symm h]
  | cons hd tl ih =>
    obtain ⟨k₀, v₀⟩ := hd
    by_cases h0 : k₀ = k
    · subst h0
      simp [setEntries, getEntries, Ne.symm h]
    · simp only [setEntries, if_neg h0, getEntries]
      by_cases h1 : k₀ = k' <;> simp [h1, ih]

theorem NatMap.get_set_self {α : Type} (m : NatMap α) (k : Nat) (v : α) :
    (m.set k v).get k = some v :=
  getEntries_setEntries_self m.entries k v

theorem NatMap.get_set_ne {α : Type} (m : NatMap α) (k k' : Nat) (v : α) (h : k' ≠ k) :
    (m.set k v).get k' = m.get k' :=
  getEntries_setEntries_ne m.entries k k' v h

theorem foldl_set_get (P : List PropertiesDataCollection)
    (m : NatMap PropertiesDataCollection) (oid : Nat) :
    (P.foldl (fun m p => m.set p.objectid p) m).get oid =
      match lastMatch P oid with
      | some r => some r
      | none => m.get oid := by
  induction P generalizing m with
  | nil => simp [lastMatch]
  | cons p P ih =>
    simp only [List.foldl_cons]
    rw [ih]
    simp only [lastMatch, List.reverse_cons, List.find?_append]
    cases hfind : P.reverse.find? (fun r => r.objectid == oid) with
    | some r => simp [hfind, Option.or]
    | none =>
      simp only [hfind, Option.none_or]
      by_cases h : p.objectid = oid
      · have hb : (p.objectid == oid) = true := by simp [h]
        subst h
        simp [List.find?, hb, NatMap.get_set_self]
      · have hb : (p.objectid == oid) = false := by simp [h]
        simp [List.find?, hb, NatMap.get_set_ne _ _ _ _ (Ne.symm h)]

/-- Building `propertiesMap` realises last-write-wins on duplicate object ids. -/
theorem propertiesMap_get (P : List PropertiesDataCollection) (oid : Nat) :
    (propertiesMap P).get oid = lastMatch P oid := by
  rw [propertiesMap, foldl_set_get]
  cases h : lastMatch P oid <;> simp [NatMap.empty, NatMap.get, getEntries]

/-- A key is present in `propertiesMap P` exactly when some record of
`P` carries that object id. -/
theorem propertiesMap_isSome_iff (P : List PropertiesDataCollection) (oid : Nat) :
    ((propertiesMap P).get oid).isSome = true ↔
      oid ∈ P.map PropertiesDataCollection.objectid := by
  rw [propertiesMap_get, lastMatch]
  cases h : P.reverse.find? (fun r => r.objectid == oid) with
  | some r =>
    have := List.find?_some h
    have hmem := List.mem_reverse.mp (List.mem_of_find?_eq_some h)
    simp only [beq_iff_eq] at this
    simp only [Option.isSome_some, true_iff]
    exact this ▸ List.mem_map_of_mem _ hmem
  | none =>
    simp only [Option.isSome_none, Bool.false_eq_true, false_iff]
    intro hmem
    obtain ⟨r, hr, hoid⟩ := List.mem_map.mp hmem
    have := List.find?_eq_none.mp h r (List.mem_reverse.mpr hr)
    simp [hoid] at this

end MapLemmas

section AttachLemmas

theorem attachProperties_eq_map (m : NatMap PropertiesDataCollection)
    (os : List ObjectTreeData) : attachProperties m os = os.map (attachOne m) := by
  induction os with
  | nil => simp [attachProperties]
  | cons o os ih => simp [attachProperties, ih]

mutual

theorem erasePropsTree_attachOne (m : NatMap PropertiesDataCollection) :
    ∀ t, erasePropsTree (attachOne m t) = erasePropsTree t
  | .mk oid nm (some cs) props => by
    simp [attachOne, erasePropsTree, erasePropsForest_attach m cs]
  | .mk oid nm none props => by
    simp [attachOne, erasePropsTree]

theorem erasePropsForest_attach (m : NatMap PropertiesDataCollection) :
    ∀ ts, erasePropsForest (attachProperties m ts) = erasePropsForest ts
  | [] => rfl
  | t :: ts => by
    simp [attachProperties, erasePropsForest, erasePropsTree_attachOne m t,
      erasePropsForest_attach m ts]

end

theorem attachOne_objectid (m : NatMap PropertiesDataCollection) (t : ObjectTreeData) :
    (attachOne m t).objectid = t.objectid := by
  obtain ⟨oid, nm, objs, props⟩ := t
  cases objs <;> simp [attachOne, ObjectTreeData.objectid]

theorem attachOne_name (m : NatMap PropertiesDataCollection) (t : ObjectTreeData) :
    (attachOne m t).name = t.name := by
  obtain ⟨oid, nm, objs, props⟩ := t
  cases objs <;> simp [attachOne, ObjectTreeData.name]

theorem attachOne_properties (m : NatMap PropertiesDataCollection) (t : ObjectTreeData) :
    (attachOne m t).properties =
      (match m.get t.objectid with
       | some r => some r.properties
       | none => t.properties) := by
  obtain ⟨oid, nm, objs, props⟩ := t
  cases objs <;>
    cases h : m.get (ObjectTreeData.objectid (.mk oid nm _ props)) <;>
    simp_all [attachOne, ObjectTreeData.objectid, ObjectTreeData.properties]

theorem attachOne_objects (m : NatMap PropertiesDataCollection) (t : ObjectTreeData) :
    (attachOne m t).objects = (t.objects).map (attachProperties m) := by
  obtain ⟨oid, nm, objs, props⟩ := t
  cases objs <;> simp [attachOne, ObjectTreeData.objects]

theorem getTreeAt_attachOne (m : NatMap PropertiesDataCollection) (p : List Nat) :
    ∀ t, getTreeAt (attachOne m t) p = (getTreeAt t p).map (attachOne m) := by
  induction p with
  | nil => intro t; simp [getTreeAt]
  | cons i p ih =>
    intro t
    simp only [getTreeAt, attachOne_objects m t]
    cases hobjs : t.objects with
    | none => simp
    | some cs =>
      simp only [Option.map_some']
      rw [attachProperties_eq_map]
      cases hget : cs[i]? with
      | none => simp [List.getElem?_map, hget]
      | some c => simp [List.getElem?_map, hget, ih c]

theorem getForestAt_attach (m : NatMap PropertiesDataCollection)
    (ts : List ObjectTreeData) (i : Nat) (p : List Nat) :
    getForestAt (attachProperties m ts) i p = (getForestAt ts i p).map (attachOne m) := by
  simp only [getForestAt, attachProperties_eq_map, List.getElem?_map]
  cases hget : ts[i]? with
  | none => simp
  | some t => simp [getTreeAt_attachOne]

end AttachLemmas

/-- Concrete tree from the spec's merge example: a Wall with a Door child. -/
def doorNode : ObjectTreeData := .mk 2 "Door" none none

def wallDoorTree : List ObjectTreeData :=
  [.mk 1 "Wall" (some [doorNode]) none]

def doorProps : List PropertiesDataCollection :=
  [⟨2, "Door", [("Dims", [("Width", "36")])]⟩]

/-- C1: the merge performed by the `allProperties` endpoint attaches a
`properties` mapping to a node iff its `objectid` appears in some
record of `P`; unmatched nodes retain their (absent) `properties`
field; the traversal recurses into every node's children whether or not
the node matched (conjunct 2: the merged forest agrees with the
original at every path, each node rewritten by `attachOne`), and
changes nothing but the `properties` fields (conjunct 1). -/
theorem allProperties_merge_attaches_iff
    (P : List PropertiesDataCollection) (T : List ObjectTreeData) :
    erasePropsForest (attachProperties (propertiesMap P) T) = erasePropsForest T ∧
    (∀ i p, getForestAt (attachProperties (propertiesMap P) T) i p =
      (getForestAt T i p).map (attachOne (propertiesMap P))) ∧
    (∀ n : ObjectTreeData,
      (attachOne (propertiesMap P) n).properties =
        (match (propertiesMap P).get n.objectid with
         | some r => some r.properties
         | none => n.properties)) ∧
    (∀ oid : Nat, (((propertiesMap P).get oid).isSome = true) ↔
      oid ∈ P.map PropertiesDataCollection.objectid) ∧
    (∀ i p n, getForestAt T i p = some n → n.properties = none →
      getForestAt (attachProperties (propertiesMap P) T) i p =
        some (attachOne (propertiesMap P) n) ∧
      (((attachOne (propertiesMap P) n).properties).isSome = true ↔
        n.objectid ∈ P.map PropertiesDataCollection.objectid)) := by
  refine ⟨erasePropsForest_attach _ _, fun i p => getForestAt_attach _ _ _ _,
    fun n => attachOne_properties _ _, fun oid => propertiesMap_isSome_iff _ _,
    fun i p n hget hnone => ⟨by rw [getForestAt_attach, hget, Option.map_some'], ?_⟩⟩
  rw [attachOne_properties]
  cases hm : (propertiesMap P).get n.objectid with
  | some r =>
    simpa using (propertiesMap_isSome_iff P n.objectid).mp (by simp [hm])
  | none =>
    rw [hnone]
    simp only [Option.isSome_none, Bool.false_eq_true, false_iff]
    intro hmem
    have := (propertiesMap_isSome_iff P n.objectid).mpr hmem
    simp [hm] at this

/-- Witness for C1 on the spec's example: node 2 ("Door") is matched
and gains a property bag; its original `properties` field was absent. -/
theorem allProperties_merge_attaches_iff_witness :
    getForestAt wallDoorTree 0 [0] = some doorNode ∧
    doorNode.properties = none ∧
    (getForestAt (attachProperties (propertiesMap doorProps) wallDoorTree) 0 [0] =
      some (attachOne (propertiesMap doorProps) doorNode) ∧
    (((attachOne (propertiesMap doorProps) doorNode).properties).isSome = true ↔
      doorNode.objectid ∈ doorProps.map PropertiesDataCollection.objectid)) :=
  ⟨rfl, rfl,
    (allProperties_merge_attaches_iff doorProps wallDoorTree).2.2.2.2 0 [0] doorNode rfl rfl⟩

/-- Flat collection with a duplicate object id `5`: record `dupRecB`
comes later in iteration order. -/
def dupRecA : PropertiesDataCollection := ⟨5, "Slab", [("A", [("k", "a")])]⟩

def dupRecB : PropertiesDataCollection := ⟨5, "Slab", [("B", [("k", "b")])]⟩

def dupProps : List PropertiesDataCollection := [dupRecA, dupRecB]

def slabTree : List ObjectTreeData := [.mk 5 "Slab" none none]

/-- C2: `propertiesMap` is last-write-wins on duplicate `objectid`s,
and consequently the merge attaches the properties of the record that
comes last in iteration order to the matching tree node. -/
theorem propertiesMap_last_write_wins (P : List PropertiesDataCollection) (oid : Nat) :
    (propertiesMap P).get oid = lastMatch P oid ∧
    (∀ r T i p n, lastMatch P oid = some r → getForestAt T i p = some n →
      n.objectid = oid →
      ∃ n', getForestAt (attachProperties (propertiesMap P) T) i p = some n' ∧
        n'.properties = some r.properties) := by
  refine ⟨propertiesMap_get P oid, fun r T i p n hlast hget hoid => ?_⟩
  refine ⟨attachOne (propertiesMap P) n, by rw [getForestAt_attach, hget, Option.map_some'], ?_⟩
  rw [attachOne_properties, hoid, propertiesMap_get, hlast]

/-- Witness for C2 on the spec's example `[A, B]`, both with
`objectid 5`: the merged node carries `B`'s properties. -/
theorem propertiesMap_last_write_wins_witness :
    lastMatch dupProps 5 = some dupRecB ∧
    (propertiesMap dupProps).get 5 = lastMatch dupProps 5 ∧
    ∃ n', getForestAt (attachProperties (propertiesMap dupProps) slabTree) 0 [] = some n' ∧
      n'.properties = some dupRecB.properties :=
  ⟨rfl, (propertiesMap_last_write_wins dupProps 5).1,
    (propertiesMap_last_write_wins dupProps 5).2 dupRecB slabTree 0 []
      (.mk 5 "Slab" none none) rfl rfl rfl⟩

/-! ## Lazy navigation tree (`projectSidebar.tsx`) -/

/-- Node kinds of the navigation tree (`TreeNode.type` in the source). -/
inductive NodeType : Type where
  | hub | project | folder | item | version | view | error
  deriving Repr, DecidableEq

/-- Navigation `TreeNode` of `projectSidebar.tsx`: `children`, `isOpen`,
`isLoading` and `parent` are optional fields. -/
inductive TreeNode : Type where
  | mk (id : String) (name : String) (type : NodeType)
       (children : Option (List TreeNode)) (isOpen : Option Bool)
       (isLoading : Option Bool) (parent : Option String)
  deriving Repr

def TreeNode.id : TreeNode → String
  | .mk i _ _ _ _ _ _ => i

def TreeNode.name : TreeNode → String
  | .mk _ n _ _ _ _ _ => n

def TreeNode.type : TreeNode → NodeType
  | .mk _ _ ty _ _ _ _ => ty

def TreeNode.children : TreeNode → Option (List TreeNode)
  | .mk _ _ _ c _ _ _ => c

def TreeNode.isOpen : TreeNode → Option Bool
  | .mk _ _ _ _ o _ _ => o

def TreeNode.isLoading : TreeNode → Option Bool
  | .mk _ _ _ _ _ l _ => l

def TreeNode.parent : TreeNode → Option String
  | .mk _ _ _ _ _ _ p => p

/-- The partial update objects passed to `updateNode` in the source
(`Partial<TreeNode>`); the call sites only ever set `children`,
`isOpen` and `isLoading`, so those are the fields modelled. An absent
field (`none`) leaves the node's field unchanged. -/
structure NodeUpdates where
  children : Option (List TreeNode) := none
  isOpen : Option Bool := none
  isLoading : Option Bool := none

/-- JavaScript spread `{ ...node, ...updates }`: fields present in
`updates` replace the node's fields, all others are kept. -/
def applyUpdates (n : TreeNode) (u : NodeUpdates) : TreeNode :=
  match n with
  | .mk i nm ty ch io il p =>
    .mk i nm ty
      (match u.children with | some cs => some cs | none => ch)
      (match u.isOpen with | some b => some b | none => io)
      (match u.isLoading with | some b => some b | none => il)
      p

mutual

/-- Helper `updateNode` of `projectSidebar.tsx` applied to one node: if the
id matches, merge the updates (without recursing further); otherwise
recurse into `children` when that field is set. -/
def updateNodeTree : TreeNode → String → NodeUpdates → TreeNode
  | .mk i nm ty ch io il p, id, u =>
    if i = id then applyUpdates (.mk i nm ty ch io il p) u
    else
      match ch with
      | some cs => .mk i nm ty (some (updateNode cs id u)) io il p
      | none => .mk i nm ty none io il p

/-- Helper `updateNode` of `projectSidebar.tsx`: `nodes.map(...)`. -/
def updateNode : List TreeNode → String → NodeUpdates → List TreeNode
  | [], _, _ => []
  | n :: ns, id, u => updateNodeTree n id u :: updateNode ns id u

end

mutual

/-- Helper `findNode` of `projectSidebar.tsx` applied to one node: the id
check comes first; children are searched only when the field is set. -/
def findNodeTree : TreeNode → String → Option TreeNode
  | .mk i nm ty ch io il p, id =>
    if i = id then some (.mk i nm ty ch io il p)
    else
      match ch with
      | some cs => findNode cs id
      | none => none

/-- Helper `findNode` of `projectSidebar.tsx`: depth-first search for the
first node with the given id. -/
def findNode : List TreeNode → String → Option TreeNode
  | [], _ => none
  | n :: ns, id =>
    match findNodeTree n id with
    | some r => some r
    | none => findNode ns id

end

mutual

/-- All node ids of a tree in depth-first order. -/
def treeIds : TreeNode → List String
  | .mk i _ _ ch _ _ _ =>
    i :: (match ch with
          | some cs => forestIds cs
          | none => [])

/-- All node ids of a forest in depth-first order. -/
def forestIds : List TreeNode → List String
  | [] => []
  | n :: ns => treeIds n ++ forestIds ns

end

mutual

/-- Path (sequence of child indices) of the first node with the given
id inside a tree; `some []` is the root of that tree. -/
def findPathTree : TreeNode → String → Option (List Nat)
  | .mk i _ _ ch _ _ _, id =>
    if i = id then some []
    else
      match ch with
      | some cs =>
        match findPathForest cs id with
        | some (j, p) => some (j :: p)
        | none => none
      | none => none

/-- Root index and path of the first node with the given id in a
forest. -/
def findPathForest : List TreeNode → String → Option (Nat × List Nat)
  | [], _ => none
  | n :: ns, id =>
    match findPathTree n id with
    | some p => some (0, p)
    | none =>
      match findPathForest ns id with
      | some (j, p) => some (j + 1, p)
      | none => none

end

/-- Replace the `i`-th element of a list by `f` of it; out-of-range
indices leave the list unchanged. -/
def listModify {α : Type} (f : α → α) : List α → Nat → List α
  | [], _ => []
  | a :: as, 0 => f a :: as
  | a :: as, i + 1 => a :: listModify f as i

/-- Positional, frame-preserving update: apply `f` to the node at path
`q`, leaving every other node and the shape of the tree untouched. -/
def modifyTreeAtPath : TreeNode → List Nat → (TreeNode → TreeNode) → TreeNode
  | t, [], f => f t
  | .mk i nm ty ch io il p, j :: q, f =>
    match ch with
    | some cs =>
      .mk i nm ty (some (listModify (fun c => modifyTreeAtPath c q f) cs j)) io il p
    | none => .mk i nm ty none io il p
termination_by _ q _ => q.length

/-- Positional, frame-preserving update of the node at root index `i`
and path `p` of a forest. -/
def modifyForestAtPath (ns : List TreeNode) (i : Nat) (p : List Nat)
    (f : TreeNode → TreeNode) : List TreeNode :=
  listModify (fun t => modifyTreeAtPath t p f) ns i

section UpdateNodeLemmas

theorem sizeOf_children_lt (i nm : String) (ty : NodeType) (cs : List TreeNode)
    (io il : Option Bool) (p : Option String) :
    sizeOf cs < sizeOf (TreeNode.mk i nm ty (some cs) io il p) := by
  simp only [TreeNode.mk.sizeOf_spec, Option.some.sizeOf_spec]
  omega

theorem sizeOf_head_lt (n : TreeNode) (ns : List TreeNode) : sizeOf n < sizeOf (n :: ns) := by
  simp only [List.cons.sizeOf_spec]
  omega

theorem sizeOf_tail_lt (n : TreeNode) (ns : List TreeNode) : sizeOf ns < sizeOf (n :: ns) := by
  simp only [List.cons.sizeOf_spec]
  omega

theorem findPath_none_iff_aux (id : String) (k : Nat) :
    (∀ t : TreeNode, sizeOf t ≤ k → (findPathTree t id = none ↔ id ∉ treeIds t)) ∧
    (∀ ns : List TreeNode, sizeOf ns ≤ k →
      (findPathForest ns id = none ↔ id ∉ forestIds ns)) := by
  induction k using Nat.strong_induction_on with
  | _ k ih =>
  constructor
  · rintro ⟨i, nm, ty, ch, io, il, p⟩ hk
    rw [findPathTree.eq_def, treeIds.eq_def]
    simp only []
    by_cases hid : i = id
    · simp [hid]
    · cases ch with
      | none => simp [hid, Ne.symm hid]
      | some cs =>
        have hcs := (ih (sizeOf cs)
          (lt_of_lt_of_le (sizeOf_children_lt i nm ty cs io il p) hk)).2 cs le_rfl
        simp only [if_neg hid, List.mem_cons, not_or]
        cases hfp : findPathForest cs id with
        | some jp =>
          obtain ⟨j, q⟩ := jp
          have hin : id ∈ forestIds cs := by
            by_contra hnin
            rw [hcs.mpr hnin] at hfp
            exact Option.noConfusion hfp
          simp [hin]
        | none => simp [Ne.symm hid, hcs.mp hfp]
  · intro ns hk
    match ns with
    | [] =>
      rw [findPathForest.eq_def, forestIds.eq_def]
      simp
    | n :: ns =>
      have hn := (ih (sizeOf n)
        (lt_of_lt_of_le (sizeOf_head_lt n ns) hk)).1 n le_rfl
      have hns := (ih (sizeOf ns)
        (lt_of_lt_of_le (sizeOf_tail_lt n ns) hk)).2 ns le_rfl
      rw [findPathForest.eq_def, forestIds.eq_def]
      simp only []
      simp only [List.mem_append, not_or]
      cases hfp : findPathTree n id with
      | some q =>
        have hin : id ∈ treeIds n := by
          by_contra hnin
          rw [hn.mpr hnin] at hfp
          exact Option.noConfusion hfp
        simp [hin]
      | none =>
        cases hfp2 : findPathForest ns id with
        | some jp =>
          obtain ⟨j, q⟩ := jp
          have hin : id ∈ forestIds ns := by
            by_contra hnin
            rw [hns.mpr hnin] at hfp2
            exact Option.noConfusion hfp2
          simp [hin]
        | none => simp [hn.mp hfp, hns.mp hfp2]

theorem findPathTree_none_iff (id : String) (t : TreeNode) :
    findPathTree t id = none ↔ id ∉ treeIds t :=
  (findPath_none_iff_aux id (sizeOf t)).1 t le_rfl

theorem findPathForest_none_iff (id : String) (ns : List TreeNode) :
    findPathForest ns id = none ↔ id ∉ forestIds ns :=
  (findPath_none_iff_aux id (sizeOf ns)).2 ns le_rfl

theorem updateNode_not_mem_aux (id : String) (u : NodeUpdates) (k : Nat) :
    (∀ t : TreeNode, sizeOf t ≤ k → id ∉ treeIds t → updateNodeTree t id u = t) ∧
    (∀ ns : List TreeNode, sizeOf ns ≤ k → id ∉ forestIds ns → updateNode ns id u = ns) := by
  induction k using Nat.strong_induction_on with
  | _ k ih =>
  constructor
  · rintro ⟨i, nm, ty, ch, io, il, p⟩ hk h
    rw [treeIds.eq_def] at h
    simp only [] at h
    simp only [List.mem_cons, not_or] at h
    obtain ⟨hid, hch⟩ := h
    rw [updateNodeTree.eq_def]
    simp only []
    cases ch with
    | none => simp [Ne.symm hid]
    | some cs =>
      have hcs := (ih (sizeOf cs)
        (lt_of_lt_of_le (sizeOf_children_lt i nm ty cs io il p) hk)).2 cs le_rfl
      simp only [] at hch
      simp [Ne.symm hid, hcs hch]
  · intro ns hk h
    match ns with
    | [] => simp [updateNode.eq_def]
    | n :: ns =>
      rw [forestIds.eq_def] at h
      simp only [] at h
      simp only [List.mem_append, not_or] at h
      have hn := (ih (sizeOf n)
        (lt_of_lt_of_le (sizeOf_head_lt n ns) hk)).1 n le_rfl
      have hns := (ih (sizeOf ns)
        (lt_of_lt_of_le (sizeOf_tail_lt n ns) hk)).2 ns le_rfl
      rw [updateNode.eq_def]
      simp only []
      simp [hn h.1, hns h.2]

theorem updateNodeTree_id_not_mem (id : String) (u : NodeUpdates) (t : TreeNode)
    (h : id ∉ treeIds t) : updateNodeTree t id u = t :=
  (updateNode_not_mem_aux id u (sizeOf t)).1 t le_rfl h

theorem updateNode_id_not_mem (id : String) (u : NodeUpdates) (ns : List TreeNode)
    (h : id ∉ forestIds ns) : updateNode ns id u = ns :=
  (updateNode_not_mem_aux id u (sizeOf ns)).2 ns le_rfl h

theorem updateNode_eq_modify_aux (id : String) (u : NodeUpdates) (k : Nat) :
    (∀ t : TreeNode, sizeOf t ≤ k → (treeIds t).Nodup → ∀ q, findPathTree t id = some q →
      updateNodeTree t id u = modifyTreeAtPath t q (fun n => applyUpdates n u)) ∧
    (∀ ns : List TreeNode, sizeOf ns ≤ k → (forestIds ns).Nodup →
      ∀ jq, findPathForest ns id = some jq →
      updateNode ns id u = modifyForestAtPath ns jq.1 jq.2 (fun n => applyUpdates n u)) := by
  induction k using Nat.strong_induction_on with
  | _ k ih =>
  constructor
  · rintro ⟨i, nm, ty, ch, io, il, p⟩ hk hnd q hq
    rw [findPathTree.eq_def] at hq
    simp only [] at hq
    rw [updateNodeTree.eq_def]
    simp only []
    by_cases hid : i = id
    · rw [if_pos hid] at hq
      obtain rfl : ([] : List Nat) = q := Option.some_inj.mp hq
      rw [modifyTreeAtPath.eq_def]
      simp [hid]
    · rw [if_neg hid] at hq
      cases ch with
      | none => simp at hq
      | some cs =>
        simp only [] at hq
        cases hfp : findPathForest cs id with
        | none =>
          simp only [hfp] at hq
          exact Option.noConfusion hq
        | some jq2 =>
          obtain ⟨j, q2⟩ := jq2
          simp only [hfp] at hq
          obtain rfl : j :: q2 = q := Option.some_inj.mp hq
          have hnd2 : (forestIds cs).Nodup := by
            rw [treeIds.eq_def] at hnd
            simp only [] at hnd
            exact hnd.of_cons
          have hrec := (ih (sizeOf cs)
            (lt_of_lt_of_le (sizeOf_children_lt i nm ty cs io il p) hk)).2
            cs le_rfl hnd2 (j, q2) hfp
          rw [modifyTreeAtPath.eq_def]
          simp only []
          simp only [if_neg hid]
          rw [hrec]
          rfl
  · intro ns hk hnd jq hq
    match ns with
    | [] => rw [findPathForest.eq_def] at hq; simp at hq
    | n :: ns =>
      have hnd0 : (treeIds n ++ forestIds ns).Nodup := by
        rw [forestIds.eq_def] at hnd
        simpa using hnd
      have hnd1 : (treeIds n).Nodup := (List.nodup_append.mp hnd0).1
      have hnd2 : (forestIds ns).Nodup := (List.nodup_append.mp hnd0).2.1
      have hdisj := (List.nodup_append.mp hnd0).2.2
      rw [findPathForest.eq_def] at hq
      simp only [] at hq
      rw [updateNode.eq_def]
      simp only []
      cases hfp : findPathTree n id with
      | some q0 =>
        simp only [hfp] at hq
        obtain rfl : ((0 : Nat), q0) = jq := Option.some_inj.mp hq
        have hmem : id ∈ treeIds n := by
          by_contra hnin
          rw [(findPathTree_none_iff id n).mpr hnin] at hfp
          exact Option.noConfusion hfp
        have hn := (ih (sizeOf n)
          (lt_of_lt_of_le (sizeOf_head_lt n ns) hk)).1 n le_rfl hnd1 q0 hfp
        simp [modifyForestAtPath, listModify, hn,
          updateNode_id_not_mem id u ns (hdisj hmem)]
      | none =>
        simp only [hfp] at hq
        cases hfp2 : findPathForest ns id with
        | none =>
          simp only [hfp2] at hq
          exact Option.noConfusion hq
        | some jq2 =>
          obtain ⟨j2, q2⟩ := jq2
          simp only [hfp2] at hq
          obtain rfl : (j2 + 1, q2) = jq := Option.some_inj.mp hq
          have hnmem : id ∉ treeIds n := (findPathTree_none_iff id n).mp hfp
          have hns := (ih (sizeOf ns)
            (lt_of_lt_of_le (sizeOf_tail_lt n ns) hk)).2 ns le_rfl hnd2 (j2, q2) hfp2
          simp [modifyForestAtPath, listModify,
            updateNodeTree_id_not_mem id u n hnmem, hns]

theorem updateNode_eq_modify (id : String) (u : NodeUpdates) (ns : List TreeNode)
    (hnd : (forestIds ns).Nodup) (j : Nat) (q : List Nat)
    (hq : findPathForest ns id = some (j, q)) :
    updateNode ns id u = modifyForestAtPath ns j q (fun n => applyUpdates n u) :=
  (updateNode_eq_modify_aux id u (sizeOf ns)).2 ns le_rfl hnd (j, q) hq

theorem findNode_updateNode_aux (id : String) (u : NodeUpdates) (k : Nat) :
    (∀ t : TreeNode, sizeOf t ≤ k →
      findNodeTree (updateNodeTree t id u) id =
        (findNodeTree t id).map (fun n => applyUpdates n u)) ∧
    (∀ ns : List TreeNode, sizeOf ns ≤ k →
      findNode (updateNode ns id u) id =
        (findNode ns id).map (fun n => applyUpdates n u)) := by
  induction k using Nat.strong_induction_on with
  | _ k ih =>
  constructor
  · rintro ⟨i, nm, ty, ch, io, il, p⟩ hk
    rw [updateNodeTree.eq_def]
    simp only []
    by_cases hid : i = id
    · rw [if_pos hid]
      simp [findNodeTree.eq_def, applyUpdates, hid]
    · rw [if_neg hid]
      cases ch with
      | none => simp [findNodeTree.eq_def, hid]
      | some cs =>
        have hcs := (ih (sizeOf cs)
          (lt_of_lt_of_le (sizeOf_children_lt i nm ty cs io il p) hk)).2 cs le_rfl
        simp [findNodeTree.eq_def, hid, hcs]
  · intro ns hk
    match ns with
    | [] => simp [updateNode.eq_def, findNode.eq_def]
    | n :: ns =>
      have hn := (ih (sizeOf n)
        (lt_of_lt_of_le (sizeOf_head_lt n ns) hk)).1 n le_rfl
      have hns := (ih (sizeOf ns)
        (lt_of_lt_of_le (sizeOf_tail_lt n ns) hk)).2 ns le_rfl
      rw [updateNode.eq_def]
      simp only []
      cases hf : findNodeTree n id with
      | some r =>
        rw [findNode.eq_def]
        simp only [hn, hf, Option.map_some']
        conv_rhs => rw [findNode.eq_def]
        simp [hf]
      | none =>
        rw [findNode.eq_def]
        simp only [hn, hf, Option.map_none']
        conv_rhs => rw [findNode.eq_def]
        simp [hf, hns]

theorem findNode_updateNode (id : String) (u : NodeUpdates) (ns : List TreeNode) :
    findNode (updateNode ns id u) id = (findNode ns id).map (fun n => applyUpdates n u) :=
  (findNode_updateNode_aux id u (sizeOf ns)).2 ns le_rfl

end UpdateNodeLemmas

theorem applyUpdates_id (n : TreeNode) (u : NodeUpdates) : (applyUpdates n u).id = n.id := by
  obtain ⟨i, nm, ty, ch, io, il, p⟩ := n
  rfl

theorem applyUpdates_children (n : TreeNode) (u : NodeUpdates) :
    (applyUpdates n u).children =
      (match u.children with | some cs => some cs | none => n.children) := by
  obtain ⟨i, nm, ty, ch, io, il, p⟩ := n
  rfl

theorem applyUpdates_isOpen (n : TreeNode) (u : NodeUpdates) :
    (applyUpdates n u).isOpen =
      (match u.isOpen with | some b => some b | none => n.isOpen) := by
  obtain ⟨i, nm, ty, ch, io, il, p⟩ := n
  rfl

theorem applyUpdates_isLoading (n : TreeNode) (u : NodeUpdates) :
    (applyUpdates n u).isLoading =
      (match u.isLoading with | some b => some b | none => n.isLoading) := by
  obtain ⟨i, nm, ty, ch, io, il, p⟩ := n
  rfl

/-- The `!node.children || node.children.length === 0` test of
`toggleNode` (an absent or empty children array triggers a fetch). -/
def childrenMissing : Option (List TreeNode) → Bool
  | none => true
  | some [] => true
  | some (_ :: _) => false

/-- Result of the children fetch performed inside `toggleNode`'s
`switch` (hub→projects, project/folder→contents, item→versions,
version→views): either the mapped-and-sorted children array (a failed
view fetch yields a singleton "error" child, which is still an `ok`
array), or a thrown error, whose `catch` handler only clears the
loading flag. -/
inductive FetchOutcome : Type where
  | ok (children : List TreeNode)
  | error

/-- The `setTree(updateNode(tree, nodeId, { isLoading: true }))` step
that `toggleNode` performs before awaiting the children fetch; the tree
is in this state while the fetch is in flight. -/
def toggleLoadingStep (tree : List TreeNode) (nodeId : String) : List TreeNode :=
  updateNode tree nodeId { isLoading := some true }

/-- Operation `toggleNode` of `projectSidebar.tsx` as a function from the current
tree and the outcome of the (single) children fetch to the final tree
and the number of fetches dispatched by this invocation.  Mirrors the
source: a missing node is a no-op; an open node is closed; a node with
absent or empty children dispatches one fetch (there is no guard on
`isLoading`); otherwise the node is just reopened.  The final
`setTree` calls apply `updateNode` to the captured `tree`, as in the
source. -/
def toggleNode (fetch : FetchOutcome) (tree : List TreeNode) (nodeId : String) :
    List TreeNode × Nat :=
  match findNode tree nodeId with
  | none => (tree, 0)
  | some node =>
    if node.isOpen = some true then
      (updateNode tree nodeId { isOpen := some false }, 0)
    else if childrenMissing node.children then
      match fetch with
      | .ok children =>
        (updateNode tree nodeId
          { children := some children, isOpen := some true, isLoading := some false }, 1)
      | .error => (updateNode tree nodeId { isLoading := some false }, 1)
    else
      (updateNode tree nodeId { isOpen := some true }, 0)

/-- C10: `updateNode` is frame-preserving under unique ids: when the
id is absent the forest is returned unchanged, and when the id is found
at root index `j`, path `q`, the result is exactly the positional
update `modifyForestAtPath` at that spot with `{ ...node, ...updates }`
applied, so the shape and order of the forest and every field of every
other node are untouched. -/
theorem updateNode_frame_preserving (ns : List TreeNode) (id : String) (u : NodeUpdates)
    (hnd : (forestIds ns).Nodup) :
    (findPathForest ns id = none → updateNode ns id u = ns) ∧
    (∀ j q, findPathForest ns id = some (j, q) →
      updateNode ns id u = modifyForestAtPath ns j q (fun n => applyUpdates n u)) :=
  ⟨fun h => updateNode_id_not_mem id u ns ((findPathForest_none_iff id ns).mp h),
   fun j q hq => updateNode_eq_modify id u ns hnd j q hq⟩

def projChild : TreeNode := .mk "project|p1" "Proj" .project (some []) (some false) none none

def demoForest : List TreeNode :=
  [.mk "hub|h1" "HubA" .hub (some [projChild]) (some true) (some false) none,
   .mk "hub|h2" "HubB" .hub none (some false) none none]

def demoUpdates : NodeUpdates := { isOpen := some true, isLoading := some false }

/-- Witness for C10: updating node `project|p1` in a two-hub forest
with unique ids equals the positional update at root 0, path `[0]`. -/
theorem updateNode_frame_preserving_witness :
    (forestIds demoForest).Nodup ∧
    findPathForest demoForest "project|p1" = some (0, [0]) ∧
    updateNode demoForest "project|p1" demoUpdates =
      modifyForestAtPath demoForest 0 [0] (fun n => applyUpdates n demoUpdates) :=
  ⟨by decide, rfl,
    (updateNode_frame_preserving demoForest "project|p1" demoUpdates (by decide)).2 0 [0] rfl⟩

/-- C6 (amended): clicking a node that is already expanded dispatches
zero additional child fetches — the click collapses it.  (The claimed
guard for the `loading` state does not exist in the code; see the
counterexample.) -/
theorem toggleNode_expanded_no_fetch (fetch : FetchOutcome) (tree : List TreeNode)
    (nodeId : String) (node : TreeNode) (hf : findNode tree nodeId = some node)
    (ho : node.isOpen = some true) :
    toggleNode fetch tree nodeId = (updateNode tree nodeId { isOpen := some false }, 0) := by
  simp [toggleNode, hf, ho]

def cachedHub : TreeNode := .mk "hub|h1" "Hub One" .hub (some [projChild]) (some true) (some false) none

/-- Witness for C6 (amended) on a concrete expanded hub node. -/
theorem toggleNode_expanded_no_fetch_witness :
    findNode [cachedHub] "hub|h1" = some cachedHub ∧
    cachedHub.isOpen = some true ∧
    toggleNode (.ok []) [cachedHub] "hub|h1" =
      (updateNode [cachedHub] "hub|h1" { isOpen := some false }, 0) :=
  ⟨rfl, rfl, toggleNode_expanded_no_fetch (.ok []) [cachedHub] "hub|h1" cachedHub rfl rfl⟩

def pristineHub : TreeNode := .mk "hub|h1" "Hub One" .hub (some []) (some false) none none

/-- The tree while `pristineHub`'s first children fetch is in flight:
`toggleNode` has set `isLoading: true` and is awaiting the fetch. -/
def loadingTree : List TreeNode := toggleLoadingStep [pristineHub] "hub|h1"

/-- Counterexample to C6 as stated: the node is in the loading state
(`isLoading = true`, children not yet fetched), yet a re-entrant click
dispatches one more fetch instead of zero — `toggleNode` has no
`isLoading` guard. -/
theorem toggleNode_loading_fetches_again :
    (∃ n, findNode loadingTree "hub|h1" = some n ∧ n.isLoading = some true) ∧
    (toggleNode (.ok []) loadingTree "hub|h1").2 = 1 :=
  ⟨⟨TreeNode.mk "hub|h1" "Hub One" .hub (some []) (some false) (some true) none, rfl, rfl⟩, rfl⟩

/-- C7 (amended): for a node whose cached children array is non-empty,
collapsing and re-expanding dispatches zero fetches and yields exactly
the cached children.  (An empty cached children array is re-fetched;
see the counterexample.) -/
theorem toggleNode_collapse_reexpand_cached (fetch1 fetch2 : FetchOutcome)
    (tree : List TreeNode) (nodeId : String) (node : TreeNode) (cs : List TreeNode)
    (hf : findNode tree nodeId = some node) (ho : node.isOpen = some true)
    (hc : node.children = some cs) (hne : cs ≠ []) :
    (toggleNode fetch1 tree nodeId).2 = 0 ∧
    (toggleNode fetch2 (toggleNode fetch1 tree nodeId).1 nodeId).2 = 0 ∧
    ∃ n2, findNode (toggleNode fetch2 (toggleNode fetch1 tree nodeId).1 nodeId).1 nodeId =
        some n2 ∧ n2.children = some cs ∧ n2.isOpen = some true := by
  obtain ⟨c, cs2, rfl⟩ := List.exists_cons_of_ne_nil hne
  have h1 : toggleNode fetch1 tree nodeId =
      (updateNode tree nodeId { isOpen := some false }, 0) := by
    simp [toggleNode, hf, ho]
  have hfind1 : findNode (updateNode tree nodeId { isOpen := some false }) nodeId =
      some (applyUpdates node { isOpen := some false }) := by
    rw [findNode_updateNode, hf]
    rfl
  have hopen1 : (applyUpdates node { isOpen := some false }).isOpen = some false := by
    rw [applyUpdates_isOpen]
  have hch1 : (applyUpdates node { isOpen := some false }).children = some (c :: cs2) := by
    rw [applyUpdates_children]
    exact hc
  have h2 : toggleNode fetch2 (updateNode tree nodeId { isOpen := some false }) nodeId =
      (updateNode (updateNode tree nodeId { isOpen := some false }) nodeId
        { isOpen := some true }, 0) := by
    simp [toggleNode, hfind1, hopen1, hch1, childrenMissing]
  have hfind2 : findNode (updateNode (updateNode tree nodeId { isOpen := some false })
        nodeId { isOpen := some true }) nodeId =
      some (applyUpdates (applyUpdates node { isOpen := some false })
        { isOpen := some true }) := by
    rw [findNode_updateNode, hfind1]
    rfl
  refine ⟨by rw [h1], by rw [h1, h2], ?_⟩
  refine ⟨applyUpdates (applyUpdates node { isOpen := some false }) { isOpen := some true },
    ?_, ?_, ?_⟩
  · rw [h1, h2]
    exact hfind2
  · rw [applyUpdates_children]
    exact hch1
  · rw [applyUpdates_isOpen]

/-- Witness for C7 (amended) on a hub with one cached child. -/
theorem toggleNode_collapse_reexpand_cached_witness :
    findNode [cachedHub] "hub|h1" = some cachedHub ∧
    cachedHub.isOpen = some true ∧
    cachedHub.children = some [projChild] ∧
    ((toggleNode (.ok []) [cachedHub] "hub|h1").2 = 0 ∧
     (toggleNode (.ok []) (toggleNode (.ok []) [cachedHub] "hub|h1").1 "hub|h1").2 = 0 ∧
     ∃ n2, findNode (toggleNode (.ok [])
         (toggleNode (.ok []) [cachedHub] "hub|h1").1 "hub|h1").1 "hub|h1" = some n2 ∧
       n2.children = some [projChild] ∧ n2.isOpen = some true) :=
  ⟨rfl, rfl, rfl,
    toggleNode_collapse_reexpand_cached (.ok []) (.ok []) [cachedHub] "hub|h1" cachedHub
      [projChild] rfl rfl rfl (List.cons_ne_nil _ _)⟩

/-- A hub whose first expansion legitimately returned zero children:
`children` was populated with the empty array and the node expanded. -/
def emptyHub : TreeNode := .mk "hub|h1" "Hub One" .hub (some []) (some true) (some false) none

/-- Counterexample to C7 as stated: collapsing `emptyHub` (zero
fetches) and re-expanding dispatches one fetch, because the
`children.length === 0` test treats cached-but-empty children as
never fetched. -/
theorem toggleNode_reexpand_empty_refetches :
    (toggleNode (.ok []) [emptyHub] "hub|h1").2 = 0 ∧
    (toggleNode (.ok []) (toggleNode (.ok []) [emptyHub] "hub|h1").1 "hub|h1").2 = 1 :=
  ⟨rfl, rfl⟩

/-! ## URN identifier encoding (`itemUrn.replace("/", "%2F")` and the
server-side `version_id.replace("%2F", "/")`) -/

/-- Test `startsWithL s pat`: `s` begins with `pat`. -/
def startsWithL : List Char → List Char → Bool
  | _, [] => true
  | [], _ :: _ => false
  | c :: s, q :: qs => c = q && startsWithL s qs

/-- JavaScript `String.prototype.replace` with a string pattern:
replace only the first occurrence of `pat` in `s` by `rep`;
if `pat` does not occur, return `s` unchanged. -/
def replaceFirst : List Char → List Char → List Char → List Char
  | [], pat, rep => if startsWithL [] pat then rep else []
  | c :: s, pat, rep =>
    if startsWithL (c :: s) pat then rep ++ (c :: s).drop pat.length
    else c :: replaceFirst s pat rep

/-- Test `containsSub s pat`: `pat` occurs as a contiguous substring of `s`. -/
def containsSub : List Char → List Char → Bool
  | [], pat => startsWithL [] pat
  | c :: s, pat => startsWithL (c :: s) pat || containsSub s pat

/-- The client-side encoding of a version URN before it is embedded in
the request path: `itemUrn.replace("/", "%2F")` in
`handleModelViewSelect` (and `toggleNode`'s version case). -/
def encodeUrn (urn : List Char) : List Char :=
  replaceFirst urn ['/'] ['%', '2', 'F']

/-- The server-side decoding in the `allProperties` route:
`version_id.replace("%2F", "/")`. -/
def decodeUrn (s : List Char) : List Char :=
  replaceFirst s ['%', '2', 'F'] ['/']

/-! ## Readiness poller (`handleModelViewSelect` in the Home page) -/

/-- The JSON body returned by the `allProperties` route. -/
structure AllPropsResponse where
  isProcessing : Bool
  properties : List PropertiesDataCollection
  objectTreeWithProperties : List ObjectTreeData

/-- One `fetch` result as seen by the poll loop: either a non-ok HTTP
response (status and statusText), or a parsed JSON body. -/
inductive ApiResponse : Type where
  | ok (data : AllPropsResponse)
  | httpError (status : Nat) (statusText : String)

/-- Terminal outcome of the poll loop. -/
inductive PollOutcome : Type where
  | success (properties : List PropertiesDataCollection)
            (objectTree : List ObjectTreeData)
  | transportFailure (status : Nat) (statusText : String)
  | timeout

/-- Constant `maxAttempts = 150` of the poll loop. -/
def maxAttempts : Nat := 150

/-- Message of the timeout error thrown after the loop. -/
def timeoutMessage : String :=
  "Timeout: Model data is taking too long to load. Please try again later."

/-- Message of the error thrown on a non-ok response. -/
def transportMessage (status : Nat) (statusText : String) : String :=
  "Failed to load model data (" ++ toString status ++ ": " ++ statusText ++ ")"

/-- The `while (attempts < maxAttempts)` loop of
`handleModelViewSelect`.  `responses i` is the result of the `i`-th
`fetch`; `issued` counts requests already made and `remaining` is
`maxAttempts - attempts`.  Returns the number of requests issued, the
number of 1-second `setTimeout` sleeps performed (one after every
"still processing" response), and the outcome: data on the first
non-processing body, a transport failure on the first non-ok response
(aborting immediately), or timeout once `remaining` hits zero. -/
def pollLoop (responses : Nat → ApiResponse) : Nat → Nat → Nat × Nat × PollOutcome
  | _, 0 => (0, 0, .timeout)
  | issued, r + 1 =>
    match responses issued with
    | .httpError st stx => (1, 0, .transportFailure st stx)
    | .ok d =>
      if d.isProcessing then
        let res := pollLoop responses (issued + 1) r
        (res.1 + 1, res.2.1 + 1, res.2.2)
      else (1, 0, .success d.properties d.objectTreeWithProperties)

/-- The React state of the Home component that
`handleModelViewSelect` touches. -/
structure ClientState where
  isLoading : Bool
  selectedVersionId : Option (List Char)
  properties : List PropertiesDataCollection
  objectTree : List ObjectTreeData
  error : Option String

/-- The synchronous prefix of `handleModelViewSelect`:
`setLoading(true); setError(null); setSelectedVersionId(encodedUrn)`. -/
def selectStart (st : ClientState) (itemUrn : List Char) : ClientState :=
  { st with isLoading := true, error := none,
            selectedVersionId := some (encodeUrn itemUrn) }

/-- The state updates `handleModelViewSelect` applies when its poll
resolves.  They are applied to whatever the current state is — the
source performs no check that its selection is still the active one:
success stores the properties and enriched tree and clears the
spinner; a thrown error (transport or timeout) stores the error
message and clears the spinner. -/
def applyPollOutcome (st : ClientState) (out : PollOutcome) : ClientState :=
  match out with
  | .success props tree =>
    { st with properties := props, objectTree := tree, isLoading := false }
  | .transportFailure s t =>
    { st with error := some (transportMessage s t), isLoading := false }
  | .timeout =>
    { st with error := some timeoutMessage, isLoading := false }

/-- Handler `handleModelViewSelect` run to completion with no interleaving:
returns the final state and the `(requests, sleeps)` counts of the
poll loop. -/
def handleModelViewSelect (st : ClientState) (itemUrn : List Char)
    (responses : Nat → ApiResponse) : ClientState × Nat × Nat :=
  let st1 := selectStart st itemUrn
  let res := pollLoop responses 0 maxAttempts
  (applyPollOutcome st1 res.2.2, res.1, res.2.1)

/-! ## Server-side `allProperties` route (`GET`) -/

/-- The response bodies the route can produce. -/
inductive ServerResponse : Type where
  | unauthorized
  | failure
  | payload (isProcessing : Bool) (properties : List PropertiesDataCollection)
            (objectTreeWithProperties : List ObjectTreeData)

/-- The `GET` handler of the `allProperties` route, parametrised by
whether auth tokens are present and by the results of the two external
calls (`getAllProperties`, `getObjectTree`), either of which may
throw.  Returns the response together with the number of times
`getObjectTree` was invoked.  `getObjectTree` is called only inside
the `if (!allProperties.isProcessing)` branch; when it throws, it was
still invoked once and the catch handler returns a 500. -/
def allPropertiesGET (tokensPresent : Bool)
    (allPropsResult : Except String (Bool × List PropertiesDataCollection))
    (objectTreeResult : Except String (List ObjectTreeData)) :
    ServerResponse × Nat :=
  if !tokensPresent then (.unauthorized, 0)
  else
    match allPropsResult with
    | .error _ => (.failure, 0)
    | .ok (isProcessing, props) =>
      if isProcessing then (.payload true [] [], 0)
      else
        match objectTreeResult with
        | .error _ => (.failure, 1)
        | .ok tree =>
          (.payload false props (attachProperties (propertiesMap props) tree), 1)

section UrnLemmas

theorem startsWithL_append_self (pat xs : List Char) :
    startsWithL (pat ++ xs) pat = true := by
  induction pat with
  | nil => simp [startsWithL]
  | cons p ps ih => simp [startsWithL, ih]

theorem replaceFirst_append (pat xs rep : List Char) (hpat : pat ≠ []) :
    replaceFirst (pat ++ xs) pat rep = rep ++ xs := by
  cases pat with
  | nil => exact absurd rfl hpat
  | cons p ps =>
    have h := startsWithL_append_self (p :: ps) xs
    rw [List.cons_append] at h
    rw [List.cons_append, replaceFirst, if_pos h]
    rw [← List.cons_append, List.drop_left]

theorem startsWithL_encode_false :
    ∀ (rest q : List Char), (∀ c ∈ q, c ≠ '%' ∧ c ≠ '/') →
      startsWithL rest q = false → startsWithL (encodeUrn rest) q = false := by
  intro rest
  induction rest with
  | nil =>
    intro q hq h
    simpa [encodeUrn, replaceFirst, startsWithL] using h
  | cons c rest ih =>
    intro q hq h
    by_cases hc : c = '/'
    · subst hc
      have henc : encodeUrn ('/' :: rest) = '%' :: '2' :: 'F' :: rest := by
        simp [encodeUrn, replaceFirst, startsWithL]
      rw [henc]
      cases q with
      | nil => simp [startsWithL] at h
      | cons qh qt =>
        have hqh := hq qh (by simp)
        simp [startsWithL, Ne.symm hqh.1]
    · have henc : encodeUrn (c :: rest) = c :: encodeUrn rest := by
        simp [encodeUrn, replaceFirst, startsWithL, hc]
      rw [henc]
      cases q with
      | nil => simp [startsWithL] at h
      | cons qh qt =>
        by_cases hqc : c = qh
        · subst hqc
          have h2 : startsWithL rest qt = false := by simpa [startsWithL] using h
          have ihq := ih qt (fun x hx => hq x (List.mem_cons_of_mem _ hx)) h2
          simp [startsWithL, ihq]
        · simp [startsWithL, hqc]

theorem decode_encode (u : List Char)
    (hfree : containsSub u ['%', '2', 'F'] = false) :
    decodeUrn (encodeUrn u) = u := by
  induction u with
  | nil => rfl
  | cons c u ih =>
    rw [containsSub] at hfree
    have hparts := Bool.or_eq_false_iff.mp hfree
    have hnp : startsWithL (c :: u) ['%', '2', 'F'] = false := hparts.1
    have hfree2 : containsSub u ['%', '2', 'F'] = false := hparts.2
    by_cases hc : c = '/'
    · subst hc
      have henc : encodeUrn ('/' :: u) = ['%', '2', 'F'] ++ u := by
        simp [encodeUrn, replaceFirst, startsWithL]
      rw [henc, decodeUrn, replaceFirst_append _ _ _ (by simp)]
      rfl
    · have henc : encodeUrn (c :: u) = c :: encodeUrn u := by
        simp [encodeUrn, replaceFirst, startsWithL, hc]
      rw [henc]
      have hnot : startsWithL (c :: encodeUrn u) ['%', '2', 'F'] = false := by
        by_cases hcp : c = '%'
        · subst hcp
          have h2F : startsWithL u ['2', 'F'] = false := by
            simpa [startsWithL] using hnp
          have h3 := startsWithL_encode_false u ['2', 'F'] (by decide) h2F
          simpa [startsWithL] using h3
        · simp [startsWithL, hcp]
      rw [decodeUrn, replaceFirst, if_neg (by simp [hnot])]
      have : replaceFirst (encodeUrn u) ['%', '2', 'F'] ['/'] = decodeUrn (encodeUrn u) := rfl
      rw [this, ih hfree2]

end UrnLemmas

/-- C5 (amended): for every URN containing `/` and not containing the
literal substring `"%2F"`, the encode/decode pair is an exact round
trip: `decode(encode(urn)) = urn` and
`encode(decode(encode(urn))) = encode(urn)`.  (Because JavaScript
`replace` with a string pattern replaces only the first occurrence,
the round trip fails for URNs that contain `"%2F"` before their first
`/`; see the counterexample.) -/
theorem urn_roundtrip (u : List Char) (hmem : '/' ∈ u)
    (hfree : containsSub u ['%', '2', 'F'] = false) :
    decodeUrn (encodeUrn u) = u ∧
    encodeUrn (decodeUrn (encodeUrn u)) = encodeUrn u := by
  have h := decode_encode u hfree
  exact ⟨h, by rw [h]⟩

/-- A URN containing the reserved character on which the round trip
works: `"urn:a/12"`. -/
def goodUrn : List Char := ['u', 'r', 'n', ':', 'a', '/', '1', '2']

/-- Witness for C5 (amended) on `"urn:a/12"`. -/
theorem urn_roundtrip_witness :
    ('/' ∈ goodUrn) ∧ containsSub goodUrn ['%', '2', 'F'] = false ∧
    (decodeUrn (encodeUrn goodUrn) = goodUrn ∧
     encodeUrn (decodeUrn (encodeUrn goodUrn)) = encodeUrn goodUrn) :=
  ⟨by decide, by decide, urn_roundtrip goodUrn (by decide) (by decide)⟩

/-- A URN string containing `/` on which the round trip fails:
`"%2F/x"` encodes to `"%2F%2Fx"`, which decodes to `"/%2Fx"`. -/
def badUrn : List Char := ['%', '2', 'F', '/', 'x']

/-- Counterexample to C5 as stated: `badUrn` contains `/`, yet
`decode(encode(badUrn)) ≠ badUrn`, because `decode` replaces the first
`"%2F"` — which here is original text, not the escaped separator. -/
theorem urn_roundtrip_counterexample :
    ('/' ∈ badUrn) ∧ decodeUrn (encodeUrn badUrn) ≠ badUrn :=
  ⟨by decide, by decide⟩

section PollLemmas

theorem pollLoop_success (responses : Nat → ApiResponse) (d : AllPropsResponse)
    (hd : d.isProcessing = false) :
    ∀ (k issued remaining : Nat), k < remaining →
    (∀ i, i < k → ∃ di, responses (issued + i) = .ok di ∧ di.isProcessing = true) →
    responses (issued + k) = .ok d →
    pollLoop responses issued remaining =
      (k + 1, k, .success d.properties d.objectTreeWithProperties) := by
  intro k
  induction k with
  | zero =>
    intro issued remaining hlt hproc hk
    obtain ⟨r, rfl⟩ : ∃ r, remaining = r + 1 := ⟨remaining - 1, by omega⟩
    rw [Nat.add_zero] at hk
    rw [pollLoop, hk]
    simp [hd]
  | succ k ih =>
    intro issued remaining hlt hproc hk
    obtain ⟨r, rfl⟩ : ∃ r, remaining = r + 1 := ⟨remaining - 1, by omega⟩
    obtain ⟨d0, hd0, hd0p⟩ := hproc 0 (Nat.succ_pos k)
    rw [Nat.add_zero] at hd0
    have hrec := ih (issued + 1) r (by omega)
      (fun i hi => by
        obtain ⟨di, h1, h2⟩ := hproc (i + 1) (by omega)
        refine ⟨di, ?_, h2⟩
        have he : issued + 1 + i = issued + (i + 1) := by omega
        rw [he]
        exact h1)
      (by
        have he : issued + 1 + k = issued + (k + 1) := by omega
        rw [he]
        exact hk)
    rw [pollLoop, hd0]
    simp [hd0p, hrec]

theorem pollLoop_timeout (responses : Nat → ApiResponse) :
    ∀ (remaining issued : Nat),
    (∀ i, i < remaining → ∃ di, responses (issued + i) = .ok di ∧ di.isProcessing = true) →
    pollLoop responses issued remaining = (remaining, remaining, .timeout) := by
  intro remaining
  induction remaining with
  | zero => intro issued h; rw [pollLoop]
  | succ r ih =>
    intro issued h
    obtain ⟨d0, hd0, hd0p⟩ := h 0 (by omega)
    rw [Nat.add_zero] at hd0
    have hrec := ih (issued + 1)
      (fun i hi => by
        obtain ⟨di, h1, h2⟩ := h (i + 1) (by omega)
        refine ⟨di, ?_, h2⟩
        have he : issued + 1 + i = issued + (i + 1) := by omega
        rw [he]
        exact h1)
    rw [pollLoop, hd0]
    simp [hd0p, hrec]

end PollLemmas

/-- C3: if the endpoint answers "still processing" on the first `k`
requests (`k ≤ 149`) and reports complete with data on request `k`,
the poll loop of `handleModelViewSelect` terminates successfully,
stores the returned properties and enriched object tree, clears the
spinner, and issues exactly `k + 1` requests with exactly `k`
one-second `setTimeout` sleeps between consecutive requests. -/
theorem handleModelViewSelect_poll_success
    (st : ClientState) (itemUrn : List Char) (responses : Nat → ApiResponse)
    (k : Nat) (d : AllPropsResponse) (hk : k ≤ 149)
    (hproc : ∀ i, i < k → ∃ di, responses i = .ok di ∧ di.isProcessing = true)
    (hready : responses k = .ok d) (hd : d.isProcessing = false) :
    handleModelViewSelect st itemUrn responses =
      ({ selectStart st itemUrn with
          properties := d.properties,
          objectTree := d.objectTreeWithProperties,
          isLoading := false }, k + 1, k) := by
  have h := pollLoop_success responses d hd k 0 maxAttempts
    (by rw [maxAttempts]; omega)
    (fun i hi => by simpa using hproc i hi)
    (by simpa using hready)
  rw [handleModelViewSelect, h]
  rfl

/-- A "still processing" body and a completed body used as witnesses. -/
def demoProcessing : AllPropsResponse := ⟨true, [], []⟩

def demoReady : AllPropsResponse := ⟨false, doorProps, wallDoorTree⟩

def demoResponses : Nat → ApiResponse :=
  fun i => if i < 2 then .ok demoProcessing else .ok demoReady

def initialClientState : ClientState := ⟨false, none, [], [], none⟩

/-- Witness for C3 with `k = 2`: two "processing" responses then a
completed one yields exactly 3 requests and 2 sleeps. -/
theorem handleModelViewSelect_poll_success_witness :
    handleModelViewSelect initialClientState ['u', '/', 'x'] demoResponses =
      ({ selectStart initialClientState ['u', '/', 'x'] with
          properties := demoReady.properties,
          objectTree := demoReady.objectTreeWithProperties,
          isLoading := false }, 3, 2) :=
  handleModelViewSelect_poll_success initialClientState ['u', '/', 'x'] demoResponses 2
    demoReady (by omega)
    (fun i hi => ⟨demoProcessing, by simp [demoResponses, hi], rfl⟩)
    (by simp [demoResponses]) rfl

/-- C4: 150 consecutive "still processing" responses make the poll
loop issue exactly 150 requests, no more, and terminate with the
timeout error stored in the dismissible `error` state with the spinner
cleared (the thrown `Error` is caught by the handler's own `catch`,
which calls `setError`/`setLoading(false)`; the UI renders `error` with
a Dismiss button, so the failure is not fatal). -/
theorem handleModelViewSelect_timeout
    (st : ClientState) (itemUrn : List Char) (responses : Nat → ApiResponse)
    (hproc : ∀ i, i < 150 → ∃ di, responses i = .ok di ∧ di.isProcessing = true) :
    handleModelViewSelect st itemUrn responses =
      ({ selectStart st itemUrn with
          error := some timeoutMessage, isLoading := false }, 150, 150) := by
  have h := pollLoop_timeout responses maxAttempts 0
    (fun i hi => by
      rw [maxAttempts] at hi
      simpa using hproc i hi)
  rw [handleModelViewSelect, h]
  rfl

/-- Witness for C4: an endpoint that never completes. -/
theorem handleModelViewSelect_timeout_witness :
    handleModelViewSelect initialClientState ['u', '/', 'x'] (fun _ => .ok demoProcessing) =
      ({ selectStart initialClientState ['u', '/', 'x'] with
          error := some timeoutMessage, isLoading := false }, 150, 150) :=
  handleModelViewSelect_timeout initialClientState ['u', '/', 'x'] _
    (fun i _ => ⟨demoProcessing, rfl, rfl⟩)

/-- C8: on each request the server-side `allProperties` handler calls
`getObjectTree` at most once, and exactly when tokens are present and
`getAllProperties` returned successfully with `isProcessing` false. -/
theorem allPropertiesGET_tree_fetch_once (tokensPresent : Bool)
    (ap : Except String (Bool × List PropertiesDataCollection))
    (ot : Except String (List ObjectTreeData)) :
    (allPropertiesGET tokensPresent ap ot).2 ≤ 1 ∧
    ((allPropertiesGET tokensPresent ap ot).2 = 1 ↔
      tokensPresent = true ∧ ∃ props, ap = .ok (false, props)) := by
  cases tokensPresent with
  | false => simp [allPropertiesGET]
  | true =>
    cases ap with
    | error e => simp [allPropertiesGET]
    | ok pr =>
      obtain ⟨isP, props⟩ := pr
      cases isP with
      | true => simp [allPropertiesGET]
      | false =>
        cases ot with
        | error e => simp [allPropertiesGET]
        | ok tree => simp [allPropertiesGET]

def apOk : Except String (Bool × List PropertiesDataCollection) := .ok (false, doorProps)

def otOk : Except String (List ObjectTreeData) := .ok wallDoorTree

/-- Witness for C8 at a concrete completed poll. -/
theorem allPropertiesGET_tree_fetch_once_witness :
    (allPropertiesGET true apOk otOk).2 ≤ 1 ∧
    ((allPropertiesGET true apOk otOk).2 = 1 ↔
      true = true ∧ ∃ props, apOk = .ok (false, props)) :=
  allPropertiesGET_tree_fetch_once true apOk otOk

def urnA : List Char := ['a', '/', '1']

def urnB : List Char := ['b', '/', '2']

def propsA : List PropertiesDataCollection := [⟨1, "A", []⟩]

def propsB : List PropertiesDataCollection := [⟨2, "B", []⟩]

/-- The UI state after: selection A started, selection B started
(superseding A), and B's poll completed successfully with `propsB`. -/
def stateAfterB : ClientState :=
  applyPollOutcome (selectStart (selectStart initialClientState urnA) urnB)
    (.success propsB [])

/-- C9 is violated by the code: `handleModelViewSelect` applies its
poll outcome unconditionally, with no check against the active
selection.  When selection A's in-flight poll resolves after B's, its
success handler overwrites the properties that B established, even
though `selectedVersionId` still identifies B. -/
theorem stale_poll_overwrites_newer_selection :
    stateAfterB.selectedVersionId = some (encodeUrn urnB) ∧
    stateAfterB.properties = propsB ∧
    (applyPollOutcome stateAfterB (.success propsA [])).selectedVersionId =
      some (encodeUrn urnB) ∧
    (applyPollOutcome stateAfterB (.success propsA [])).properties = propsA ∧
    propsA ≠ propsB :=
  ⟨rfl, rfl, rfl, rfl, by decide⟩

end RevitParamExplorer
